import Mathlib

/-!
Verification of the MasterProgram buffering and framing subsystem.

The definitions below are shallow embeddings of the Python sources:
  - DataParser/circular_buffer.py   (class CircularBuffer)
  - UartSrc/simple_uart.py          (the data frame parser and the parse worker)
  - DataStructures/data_frame.py    (class DataFramePublisher)
  - DataStructures/command_frame.py (class UartControl)
Machine integers are modelled as Nat / Int / Fin 256.  The float
arithmetic of the derived per channel current is modelled over the
rationals (3.92 becomes 392/100).  Fallible operations return Option.
-/

set_option maxHeartbeats 1600000

namespace MasterProgram

/-! ## CircularBuffer (DataParser/circular_buffer.py)

The Python class stores: size (capacity, fixed), buffer (a bytearray or a
list of length size), read_pos, write_pos and available.  The element type
is abstracted as a type parameter; the byte instantiation uses Fin 256 and
the list instantiation uses the frame type.  The threading lock only makes
each operation atomic, so the sequential model below is the per operation
semantics. -/

structure CircularBuffer (α : Type) where
  size : ℕ
  buffer : List α
  read_pos : ℕ
  write_pos : ℕ
  available : ℕ
  deriving DecidableEq

attribute [ext] CircularBuffer

variable {α : Type}

/-- Constructor: fresh buffer of the given capacity.  The source prefills
byte buffers with zero bytes and list buffers with None; the fill element
is a parameter here. -/
def CircularBuffer.init (size : ℕ) (fill : α) : CircularBuffer α :=
  ⟨size, List.replicate size fill, 0, 0, 0⟩

/-- The chunked copy loop of CircularBuffer.read / peek: repeatedly copy
min(remaining, size - read_pos) elements starting at read_pos, advance
read_pos modulo size.  The loop runs while remaining > 0.  The first
argument after buf is fuel; each source iteration strictly decreases
remaining, so fuel = remaining makes the fuel branch unreachable.  The
cap ≤ pos branch is unreachable as well (the source would spin forever
there); positions stay below cap whenever cap ≥ 1. -/
def readLoopF (cap : ℕ) (buf : List α) : ℕ → ℕ → ℕ → List α × ℕ
  | _, 0, pos => ([], pos)
  | 0, _ + 1, pos => ([], pos)
  | fuel + 1, rem + 1, pos =>
    if cap ≤ pos then ([], pos)
    else
      let d := min (rem + 1) (cap - pos)
      let r := readLoopF cap buf fuel (rem + 1 - d) ((pos + d) % cap)
      ((buf.drop pos).take d ++ r.1, r.2)

/-- The read copy loop with fuel fixed to the element count. -/
def readLoop (cap : ℕ) (buf : List α) (remaining pos : ℕ) : List α × ℕ :=
  readLoopF cap buf remaining remaining pos

/-- The chunked copy loop of CircularBuffer.write: repeatedly store
min(remaining, size - write_pos) leading elements of the pending data at
write_pos, advance write_pos modulo size.  Fuel as in readLoopF. -/
def writeLoopF (cap : ℕ) : ℕ → List α → List α → ℕ → List α × ℕ
  | _, buf, [], pos => (buf, pos)
  | 0, buf, _ :: _, pos => (buf, pos)
  | fuel + 1, buf, x :: xs, pos =>
    if cap ≤ pos then (buf, pos)
    else
      let d := min (x :: xs).length (cap - pos)
      writeLoopF cap fuel
        (buf.take pos ++ (x :: xs).take d ++ buf.drop (pos + d))
        ((x :: xs).drop d) ((pos + d) % cap)

/-- The write copy loop with fuel fixed to the data length. -/
def writeLoop (cap : ℕ) (buf data : List α) (pos : ℕ) : List α × ℕ :=
  writeLoopF cap data.length buf data pos

/-- CircularBuffer.write.  Returns the value Python returns (an int, hence
ℤ: after a write into a corrupted buffer the returned count is negative)
together with the successor state.  Mirrors the source line by line:
empty data returns 0; free_space = size - available; when free_space is
smaller the data is truncated to free_space elements; a zero truncated
length returns 0 with no mutation; the chunked loop copies and wraps;
available grows by the written count.  A negative free_space (reachable
only from a corrupted state) skips the loop and still adds free_space to
available, exactly as the source does. -/
def CircularBuffer.write (b : CircularBuffer α) (data : List α) :
    ℤ × CircularBuffer α :=
  let data_len : ℤ := data.length
  if data_len = 0 then (0, b)
  else
    let free_space : ℤ := (b.size : ℤ) - (b.available : ℤ)
    if free_space < data_len then
      if free_space = 0 then (0, b)
      else if free_space < 0 then
        (free_space, { b with available := ((b.available : ℤ) + free_space).toNat })
      else
        let w := writeLoop b.size b.buffer (data.take free_space.toNat) b.write_pos
        (free_space, { b with buffer := w.1, write_pos := w.2,
                              available := b.available + free_space.toNat })
    else
      let w := writeLoop b.size b.buffer data b.write_pos
      (data_len, { b with buffer := w.1, write_pos := w.2,
                          available := b.available + data.length })

/-- The effective element count of read and peek: the source keeps all of
available when the size argument is None and otherwise clamps the request
with min(size, available). -/
def CircularBuffer.readSize (b : CircularBuffer α) : Option ℤ → ℤ
  | none => (b.available : ℤ)
  | some n => min n (b.available : ℤ)

/-- CircularBuffer.read.  The size argument is Optional (None reads all
available data); a Python int, hence ℤ.  Mirrors the source: empty buffer
returns empty; size = min(size, available); size == 0 returns empty with
no mutation; a negative size skips the copy loop, returns empty and still
subtracts size from available (the silent mutation of the negative size
path); otherwise the loop copies, read_pos advances and available
shrinks. -/
def CircularBuffer.read (b : CircularBuffer α) (sz : Option ℤ) :
    List α × CircularBuffer α :=
  if b.available = 0 then ([], b)
  else
    let size : ℤ := b.readSize sz
    if size = 0 then ([], b)
    else if size < 0 then
      ([], { b with available := ((b.available : ℤ) - size).toNat })
    else
      let r := readLoop b.size b.buffer size.toNat b.read_pos
      (r.1, { b with read_pos := r.2, available := b.available - size.toNat })

/-- CircularBuffer.peek: same copy loop as read over a temporary read
position; never mutates. -/
def CircularBuffer.peek (b : CircularBuffer α) (sz : Option ℤ) : List α :=
  if b.available = 0 then []
  else
    let size : ℤ := b.readSize sz
    if size = 0 then []
    else if size < 0 then []
    else (readLoop b.size b.buffer size.toNat b.read_pos).1

/-- CircularBuffer.consume: advances the read pointer without returning
data; non positive or oversized requests return false with no mutation. -/
def CircularBuffer.consume (b : CircularBuffer α) (size : ℤ) :
    Bool × CircularBuffer α :=
  if size ≤ 0 then (false, b)
  else if (b.available : ℤ) < size then (false, b)
  else (true, { b with read_pos := (b.read_pos + size.toNat) % b.size,
                       available := b.available - size.toNat })

/-- CircularBuffer.get_available. -/
def CircularBuffer.get_available (b : CircularBuffer α) : ℕ := b.available

/-- CircularBuffer.get_free_space: size - available as a Python int (it is
negative on a corrupted state). -/
def CircularBuffer.get_free_space (b : CircularBuffer α) : ℤ :=
  (b.size : ℤ) - (b.available : ℤ)

/-- CircularBuffer.clear. -/
def CircularBuffer.clear (b : CircularBuffer α) : CircularBuffer α :=
  { b with read_pos := 0, write_pos := 0, available := 0 }

/-- CircularBuffer.is_empty. -/
def CircularBuffer.is_empty (b : CircularBuffer α) : Bool :=
  b.available = 0

/-- CircularBuffer.is_full. -/
def CircularBuffer.is_full (b : CircularBuffer α) : Bool :=
  b.available = b.size

/-- Well formed buffer states: the storage has exactly capacity elements,
both cursors are in range, the element count is bounded by the capacity
and the write cursor sits available positions after the read cursor,
modulo the capacity.  Every state the public operations reach from a
fresh buffer of capacity at least one satisfies WF, except through the
negative size read path. -/
def WF (b : CircularBuffer α) : Prop :=
  b.buffer.length = b.size ∧ b.read_pos < b.size ∧ b.write_pos < b.size ∧
    b.available ≤ b.size ∧ b.write_pos = (b.read_pos + b.available) % b.size

instance decidableWF (b : CircularBuffer α) : Decidable (WF b) := by
  unfold WF; infer_instance

/-- The logical FIFO content of a buffer: the available elements starting
at the read cursor, wrapping past the end of the storage. -/
def contents (b : CircularBuffer α) : List α :=
  (b.buffer.drop b.read_pos ++ b.buffer.take b.read_pos).take b.available

/-! ### Operation traces: the buffer against an unbounded FIFO queue -/

/-- A single client operation on a buffer: a write call or a read call.
Read sizes are None or a nonnegative count, the shapes the workers
issue. -/
inductive BufOp (α : Type) where
  | write (data : List α)
  | read (sz : Option ℕ)

/-- Run a sequence of operations.  Collects, in order, the elements the
read calls returned and the elements the write calls accepted (the
leading prefix of each write payload measured by the returned count),
together with the final buffer. -/
def runTrace (b : CircularBuffer α) : List (BufOp α) →
    List α × List α × CircularBuffer α
  | [] => ([], [], b)
  | .write data :: ops =>
    let w := b.write data
    let rest := runTrace w.2 ops
    (rest.1, data.take w.1.toNat ++ rest.2.1, rest.2.2)
  | .read sz :: ops =>
    let r := b.read (sz.map (fun n : ℕ => (n : ℤ)))
    let rest := runTrace r.2 ops
    (r.1 ++ rest.1, rest.2.1, rest.2.2)


/-! ## Data frames and the parser (UartSrc/simple_uart.py,
DataStructures/data_frame.py) -/

/-- A wire byte. -/
abbrev Byte := Fin 256

/-- Little endian value of a byte string (int.from_bytes with byteorder
little). -/
def leVal : List Byte → ℕ
  | [] => 0
  | b :: bs => b.val + 256 * leVal bs

/-- int.from_bytes(bs, little, signed=True): two complement over
8 * len(bs) bits; the empty string decodes to 0. -/
def leValSigned (bs : List Byte) : ℤ :=
  if leVal bs < 2 ^ (8 * bs.length - 1) then (leVal bs : ℤ)
  else (leVal bs : ℤ) - 2 ^ (8 * bs.length)

/-- frame_data[i:i+2] decoded as a signed little endian 16 bit value.  A
slice never raises in the source; a short slice just yields a short byte
string. -/
def sliceI16 (fd : List Byte) (i : ℕ) : ℤ :=
  leValSigned ((fd.drop i).take 2)

/-- frame_data[i:i+2] decoded as an unsigned little endian 16 bit
value. -/
def sliceU16 (fd : List Byte) (i : ℕ) : ℕ :=
  leVal ((fd.drop i).take 2)

/-- The signed little endian decode of a full two byte pair. -/
def toInt16LE (lo hi : Byte) : ℤ :=
  if lo.val + 256 * hi.val < 32768 then (lo.val + 256 * hi.val : ℤ)
  else (lo.val + 256 * hi.val : ℤ) - 65536

/-- The unsigned little endian decode of a full two byte pair. -/
def toUInt16LE (lo hi : Byte) : ℕ := lo.val + 256 * hi.val

/-- ChannelData (DataStructures/data_frame.py): one channel of a data
frame.  The Python float current is modelled over ℚ. -/
structure ChannelData where
  adc : ℤ
  sdadc0 : ℤ
  sdadc1 : ℤ
  adj0 : ℕ
  adj1 : ℕ
  current : ℚ
  deriving DecidableEq

/-- The derived current of a channel:
1000 * (sdadc0 + 32767) * 3300 / 65535 / ((256 - adj0) * 3.92), with the
float literal 3.92 as the exact rational 392/100. -/
def currentOf (sdadc0 : ℤ) (adj0 : ℕ) : ℚ :=
  (1000 * ((sdadc0 : ℚ) + 32767) * 3300 / 65535) /
    ((256 - (adj0 : ℚ)) * (392 / 100))

/-- DataFrame (DataStructures/data_frame.py) as filled by the parser:
four channels, the master and slave sequence numbers and the device
state flag.  The constant header and tail bytes of the dataclass carry
no information and are omitted. -/
structure DataFrame where
  channels : Fin 4 → ChannelData
  master_frame : ℕ
  slave_frame : ℕ
  lidar_state : ℕ
  deriving DecidableEq

/-- Outcome of SimpleUart._parse_data_frame: the frame was published, or
the internal tail check failed (reported through _handle_error, nothing
published), or an exception such as an out of range index was caught and
reported through _handle_error. -/
inductive ParseResult where
  | published (f : DataFrame)
  | tailError (f : DataFrame) (tail : Byte)
  | parseError
  deriving DecidableEq

/-- SimpleUart._parse_data_frame on the 38 byte body that follows the
A9 B5 lead.  The 16 bit fields are read through slices, which never
raise; the ADJ bytes, the state flag and the tail byte are read through
direct indexing, which raises IndexError past the end of the body -- the
Option reads model exactly those accesses, and the except branch of the
source maps the failure to parseError.  The ADC channel permutation
(channels 1, 0, 2, 3 take the four raw slots in order), the SDADC offset
table and the current formula follow the source line by line. -/
def parse_data_frame (fd : List Byte) : ParseResult :=
  match (do
    let a00 ← fd.get? 24
    let a10 ← fd.get? 25
    let a20 ← fd.get? 26
    let a30 ← fd.get? 27
    let a01 ← fd.get? 28
    let a11 ← fd.get? 29
    let a21 ← fd.get? 30
    let a31 ← fd.get? 31
    let lidar ← fd.get? 36
    let tail ← fd.get? 37
    pure (DataFrame.mk
      ![⟨sliceI16 fd 2, sliceI16 fd 8, sliceI16 fd 14, a00.val, a01.val,
          currentOf (sliceI16 fd 8) a00.val⟩,
        ⟨sliceI16 fd 0, sliceI16 fd 10, sliceI16 fd 16, a10.val, a11.val,
          currentOf (sliceI16 fd 10) a10.val⟩,
        ⟨sliceI16 fd 4, sliceI16 fd 12, sliceI16 fd 20, a20.val, a21.val,
          currentOf (sliceI16 fd 12) a20.val⟩,
        ⟨sliceI16 fd 6, sliceI16 fd 18, sliceI16 fd 22, a30.val, a31.val,
          currentOf (sliceI16 fd 18) a30.val⟩]
      (sliceU16 fd 32) (sliceU16 fd 34) lidar.val, tail) :
      Option (DataFrame × Byte)) with
  | none => ParseResult.parseError
  | some (f, tail) =>
    if tail.val ≠ 0x33 then ParseResult.tailError f tail
    else ParseResult.published f

/-! ## The parse worker state machine (SimpleUart._parse_worker) -/

/-- Observable state of the parse worker plus the effects its loop
produces: the current frame_state (0 = seeking a lead, 1 = saw the data
lead A9, 2 = saw the command lead 05), the frames published through
DataFramePublisher.publish, the accepted command frames (id, length,
payload), the _handle_error invocation count (the error counter and
error callback channel) and the counts of the two console diagnostics
printed for a bad data frame tail and for a command checksum
mismatch. -/
structure WorkerState where
  frame_state : ℕ
  published : List DataFrame
  cmd_accepted : List (Byte × Byte × List Byte)
  errors : ℕ
  tail_error_prints : ℕ
  chk_error_prints : ℕ
  deriving DecidableEq

/-- The parse worker consuming a finite byte stream, with explicit fuel;
every loop iteration consumes at least the one byte it reads, so fuel =
stream length makes the fuel branch unreachable.  Where the source would
spin waiting for body bytes that never arrive on the closed finite
stream, the run stops and signals starvation through the boolean. -/
def runWorkerF : ℕ → WorkerState → List Byte → WorkerState × Bool
  | _, st, [] => (st, false)
  | 0, st, _ :: _ => (st, true)
  | fuel + 1, st, current_byte :: rest =>
    if st.frame_state = 0 then
      if current_byte.val = 0xA9 then
        runWorkerF fuel { st with frame_state := 1 } rest
      else if current_byte.val = 0x05 then
        runWorkerF fuel { st with frame_state := 2 } rest
      else runWorkerF fuel st rest
    else if st.frame_state = 1 then
      if current_byte.val = 0xB5 then
        if rest.length < 38 then (st, true)
        else
          let remaining_data := rest.take 38
          let st2 :=
            if (remaining_data.getD 37 0).val = 0x33 then
              match parse_data_frame remaining_data with
              | ParseResult.published f =>
                { st with published := st.published ++ [f] }
              | ParseResult.tailError _ _ => { st with errors := st.errors + 1 }
              | ParseResult.parseError => { st with errors := st.errors + 1 }
            else { st with tail_error_prints := st.tail_error_prints + 1 }
          runWorkerF fuel { st2 with frame_state := 0 } (rest.drop 38)
      else if current_byte.val = 0xA9 then runWorkerF fuel st rest
      else if current_byte.val = 0x05 then
        runWorkerF fuel { st with frame_state := 2 } rest
      else runWorkerF fuel { st with frame_state := 0 } rest
    else if st.frame_state = 2 then
      if current_byte.val = 0x1C then
        if rest.length < 2 then (st, true)
        else
          let cmd_id := rest.getD 0 0
          let length := rest.getD 1 0
          let rest2 := rest.drop 2
          if rest2.length < length.val + 1 then (st, true)
          else
            let content := (rest2.take (length.val + 1)).dropLast
            let received_checksum :=
              (rest2.take (length.val + 1)).getD length.val 0
            let calculated_checksum :=
              (0x05 + 0x1C + cmd_id.val + length.val +
                (content.map Fin.val).sum) % 256
            let st2 :=
              if calculated_checksum = received_checksum.val then
                { st with cmd_accepted :=
                    st.cmd_accepted ++ [(cmd_id, length, content)] }
              else { st with chk_error_prints := st.chk_error_prints + 1 }
            runWorkerF fuel { st2 with frame_state := 0 }
              (rest2.drop (length.val + 1))
      else if current_byte.val = 0x05 then runWorkerF fuel st rest
      else if current_byte.val = 0xA9 then
        runWorkerF fuel { st with frame_state := 1 } rest
      else runWorkerF fuel { st with frame_state := 0 } rest
    else runWorkerF fuel st rest

/-- The fresh worker state: seeking, nothing published, no errors. -/
def initWorker : WorkerState := ⟨0, [], [], 0, 0, 0⟩

/-- Run the parse worker over a complete finite byte stream. -/
def runWorker (st : WorkerState) (input : List Byte) : WorkerState × Bool :=
  runWorkerF input.length st input

/-! ## The publisher (DataStructures/data_frame.py) -/

/-- BufferType (DataParser/circular_buffer.py): the storage kind of a
CircularBuffer; byte buffers only accept bytes objects, list buffers
only accept lists. -/
inductive BufferType where
  | bytearray
  | list
  | bytes
  deriving DecidableEq

/-- A subscriber entry of DataFramePublisher: a CircularBuffer handle
together with its storage kind.  publish hands every subscriber a one
element Python list, so a byte typed subscriber raises TypeError inside
write while a list typed subscriber runs the generic write. -/
structure SubBuffer (α : Type) where
  buffer_type : BufferType
  buf : CircularBuffer α
  deriving DecidableEq

/-- The dynamic write the publisher performs on one subscriber: writing
a list of frames into a byte typed buffer raises TypeError (none); a
list typed buffer runs CircularBuffer.write and reports the count. -/
def SubBuffer.writeFrames (s : SubBuffer α) (data : List α) :
    Option (ℤ × SubBuffer α) :=
  match s.buffer_type with
  | BufferType.list =>
    some ((s.buf.write data).1, ⟨s.buffer_type, (s.buf.write data).2⟩)
  | _ => none

/-- DataFramePublisher.publish: push the frame, wrapped as a one element
list, into every registered buffer; a raising subscriber is skipped and
delivery continues; a subscriber counts when its write accepted at least
one element.  The subscriber set is modelled as a list of handles; the
count and the per subscriber updates are independent of iteration
order. -/
def publish (frame : α) : List (SubBuffer α) → ℕ × List (SubBuffer α)
  | [] => (0, [])
  | s :: subs =>
    let rest := publish frame subs
    match s.writeFrames [frame] with
    | some (written, s2) =>
      ((if 0 < written then 1 else 0) + rest.1, s2 :: rest.2)
    | none => (rest.1, s :: rest.2)

/-- Whether a subscriber accepts a frame: its write runs without a type
error and reports a positive written count. -/
def acceptsFrame (frame : α) (s : SubBuffer α) : Bool :=
  match s.writeFrames [frame] with
  | some (written, _) => decide (0 < written)
  | none => false

/-- The state of a subscriber after a publish: updated by its write when
the write ran, untouched when the write raised. -/
def afterPublish (frame : α) (s : SubBuffer α) : SubBuffer α :=
  match s.writeFrames [frame] with
  | some (_, s2) => s2
  | none => s

/-! ## The outbound control block (DataStructures/command_frame.py) -/

/-- UartControl: the nine 16 bit control fields, in wire order. -/
structure UartControl where
  uart_upload_time : ℕ
  adj_time : ℕ
  fashion_time : ℕ
  pos_low : ℕ
  pos_high : ℕ
  pos_div : ℕ
  pos_set : ℕ
  flag_mask : ℕ
  lidar_time : ℕ
  deriving DecidableEq

/-- struct.pack of one big endian 16 bit field. -/
def packU16BE (v : ℕ) : List ℕ := [v / 256, v % 256]

/-- All nine fields fit in 16 bits; struct.pack raises struct.error for
a field outside this range. -/
def UartControl.fieldsInRange (c : UartControl) : Prop :=
  c.uart_upload_time < 65536 ∧ c.adj_time < 65536 ∧
    c.fashion_time < 65536 ∧ c.pos_low < 65536 ∧ c.pos_high < 65536 ∧
    c.pos_div < 65536 ∧ c.pos_set < 65536 ∧ c.flag_mask < 65536 ∧
    c.lidar_time < 65536

instance (c : UartControl) : Decidable c.fieldsInRange := by
  unfold UartControl.fieldsInRange; infer_instance

/-- UartControl.to_bytes: struct.pack of the nine fields, big endian, in
declaration order; a struct.error on an out of range field becomes
none. -/
def UartControl.to_bytes (c : UartControl) : Option (List ℕ) :=
  if c.fieldsInRange then
    some (packU16BE c.uart_upload_time ++ packU16BE c.adj_time ++
      packU16BE c.fashion_time ++ packU16BE c.pos_low ++
      packU16BE c.pos_high ++ packU16BE c.pos_div ++
      packU16BE c.pos_set ++ packU16BE c.flag_mask ++
      packU16BE c.lidar_time)
  else none

/-- UartControl.from_bytes: rejects any input whose length is not 18 (a
ValueError, modelled as none), otherwise unpacks nine big endian 16 bit
fields in declaration order. -/
def UartControl.from_bytes (data : List ℕ) : Option UartControl :=
  if data.length = 18 then
    some ⟨256 * data.getD 0 0 + data.getD 1 0,
          256 * data.getD 2 0 + data.getD 3 0,
          256 * data.getD 4 0 + data.getD 5 0,
          256 * data.getD 6 0 + data.getD 7 0,
          256 * data.getD 8 0 + data.getD 9 0,
          256 * data.getD 10 0 + data.getD 11 0,
          256 * data.getD 12 0 + data.getD 13 0,
          256 * data.getD 14 0 + data.getD 15 0,
          256 * data.getD 16 0 + data.getD 17 0⟩
  else none

/-- A sample 38 byte body with a valid tail sentinel. -/
def sampleBody : List Byte := List.replicate 37 (0x01 : Byte) ++ [(0x33 : Byte)]

/-- A sample 38 byte body with a corrupted tail byte. -/
def sampleBadBody : List Byte := List.replicate 38 (0x00 : Byte)

/-- A sample subscriber list: one empty list typed buffer, one byte
typed buffer (whose write raises on a frame list) and one full list
typed buffer. -/
def sampleSubs : List (SubBuffer ℕ) :=
  [⟨BufferType.list, CircularBuffer.init 2 0⟩,
   ⟨BufferType.bytearray, CircularBuffer.init 2 0⟩,
   ⟨BufferType.list, ⟨1, [7], 0, 0, 1⟩⟩]

/-! ### Closed forms of the two copy loops

With the cursor in range and at most one wrap the loops run at most two
iterations; the collected data is a contiguous slice of the storage
rotated to the cursor. -/

theorem readLoopF_eq (cap : ℕ) (buf : List α) (fuel remaining pos : ℕ)
    (hfuel : remaining ≤ fuel) (hbuf : buf.length = cap) (hpos : pos < cap)
    (hrem : remaining ≤ cap) :
    readLoopF cap buf fuel remaining pos =
      ((buf.drop pos ++ buf.take pos).take remaining, (pos + remaining) % cap) := by
  rcases remaining with _ | rem
  · cases fuel <;> simp [readLoopF, Nat.mod_eq_of_lt hpos]
  rcases fuel with _ | fuel
  · omega
  simp only [readLoopF, if_neg (show ¬ cap ≤ pos by omega)]
  by_cases hc : rem + 1 ≤ cap - pos
  · have hd : min (rem + 1) (cap - pos) = rem + 1 := min_eq_left hc
    simp only [hd, Nat.sub_self]
    have hbase : readLoopF cap buf fuel 0 ((pos + (rem + 1)) % cap) =
        ([], (pos + (rem + 1)) % cap) := by
      cases fuel <;> rfl
    rw [hbase]
    simp only [List.append_nil, Prod.mk.injEq, and_true]
    rw [List.take_append_of_le_length]
    rw [List.length_drop, hbuf]
    omega
  · have hd : min (rem + 1) (cap - pos) = cap - pos := min_eq_right (by omega)
    have hposc : (pos + (cap - pos)) % cap = 0 := by
      rw [show pos + (cap - pos) = cap by omega, Nat.mod_self]
    simp only [hd, hposc]
    have hrem2le : rem + 1 - (cap - pos) ≤ pos := by omega
    obtain ⟨r1, hr1⟩ : ∃ j, rem + 1 - (cap - pos) = j + 1 :=
      ⟨rem + 1 - (cap - pos) - 1, by omega⟩
    rcases fuel with _ | fuel
    · omega
    rw [hr1]
    simp only [readLoopF, if_neg (show ¬ cap ≤ 0 by omega)]
    have hd2 : min (r1 + 1) cap = r1 + 1 := min_eq_left (by omega)
    simp only [hd2, Nat.sub_self, Nat.sub_zero, List.drop_zero]
    have hbase : readLoopF cap buf fuel 0 ((0 + (r1 + 1)) % cap) =
        ([], (0 + (r1 + 1)) % cap) := by
      cases fuel <;> rfl
    rw [hbase]
    simp only [List.append_nil, Nat.zero_add, Prod.mk.injEq]
    constructor
    · have hlen : (buf.drop pos).length = cap - pos := by
        rw [List.length_drop, hbuf]
      have h1 : (buf.drop pos).take (cap - pos) = buf.drop pos :=
        List.take_of_length_le (le_of_eq hlen)
      have hrhs : (buf.drop pos ++ buf.take pos).take (rem + 1) =
          buf.drop pos ++ buf.take (r1 + 1) := by
        rw [List.take_append_eq_append_take, hlen,
          List.take_of_length_le (by rw [hlen]; omega), hr1, List.take_take,
          min_eq_left (by omega)]
      rw [h1, hrhs]
    · rw [Nat.mod_eq_of_lt (by omega),
        show pos + (rem + 1) = cap + (r1 + 1) by omega,
        Nat.add_mod_left, Nat.mod_eq_of_lt (by omega)]

theorem readLoop_eq (cap : ℕ) (buf : List α) (remaining pos : ℕ)
    (hbuf : buf.length = cap) (hpos : pos < cap) (hrem : remaining ≤ cap) :
    readLoop cap buf remaining pos =
      ((buf.drop pos ++ buf.take pos).take remaining, (pos + remaining) % cap) :=
  readLoopF_eq cap buf remaining remaining pos le_rfl hbuf hpos hrem

theorem writeLoopF_no_wrap (cap fuel : ℕ) (buf data : List α) (pos : ℕ)
    (hfuel : data.length ≤ fuel) (hpos : pos < cap)
    (hd : data.length ≤ cap - pos) :
    writeLoopF cap fuel buf data pos =
      (buf.take pos ++ data ++ buf.drop (pos + data.length),
       (pos + data.length) % cap) := by
  rcases data with _ | ⟨x, xs⟩
  · cases fuel <;>
      simp [writeLoopF, Nat.mod_eq_of_lt hpos, List.take_append_drop]
  rcases fuel with _ | fuel
  · simp at hfuel
  simp only [writeLoopF, if_neg (show ¬ cap ≤ pos by omega)]
  have hmin : min (x :: xs).length (cap - pos) = (x :: xs).length :=
    min_eq_left hd
  simp only [hmin, List.take_length, List.drop_length]
  have hbase : writeLoopF cap fuel
      (buf.take pos ++ (x :: xs) ++ buf.drop (pos + (x :: xs).length)) []
      ((pos + (x :: xs).length) % cap) =
      (buf.take pos ++ (x :: xs) ++ buf.drop (pos + (x :: xs).length),
       (pos + (x :: xs).length) % cap) := by
    cases fuel <;> rfl
  rw [hbase]

theorem writeLoopF_wrap (cap fuel : ℕ) (buf data : List α) (pos : ℕ)
    (hfuel : data.length ≤ fuel) (hbuf : buf.length = cap) (hpos : pos < cap)
    (hlo : cap - pos < data.length) (hhi : data.length ≤ cap) :
    writeLoopF cap fuel buf data pos =
      (data.drop (cap - pos) ++
         (buf.take pos).drop (data.length - (cap - pos)) ++
         data.take (cap - pos),
       (pos + data.length) % cap) := by
  rcases data with _ | ⟨x, xs⟩
  · simp at hlo
  rcases fuel with _ | fuel
  · simp at hfuel
  simp only [writeLoopF, if_neg (show ¬ cap ≤ pos by omega)]
  have hmin : min (x :: xs).length (cap - pos) = cap - pos :=
    min_eq_right (by omega)
  simp only [hmin]
  rw [show pos + (cap - pos) = cap by omega,
    List.drop_eq_nil_of_le (by omega), List.append_nil, Nat.mod_self]
  have hlen2 : ((x :: xs).drop (cap - pos)).length =
      (x :: xs).length - (cap - pos) := by
    rw [List.length_drop]
  rw [writeLoopF_no_wrap cap fuel _ _ 0
      (by rw [hlen2]; omega) (by omega) (by rw [hlen2]; omega)]
  rw [hlen2]
  have htklen : (buf.take pos).length = pos := by
    rw [List.length_take]
    omega
  simp only [List.take_zero, List.nil_append, Nat.zero_add, Prod.mk.injEq]
  constructor
  · rw [List.drop_append_eq_append_drop, htklen,
      show (x :: xs).length - (cap - pos) - pos = 0 by omega,
      List.drop_zero, List.append_assoc]
  · rw [Nat.mod_eq_of_lt (by omega),
      show pos + (x :: xs).length = cap + ((x :: xs).length - (cap - pos)) by
        omega,
      Nat.add_mod_left, Nat.mod_eq_of_lt (by omega)]

/-! ### Read: specification against the logical contents -/

theorem contents_rotate (buf : List α) (cap r n a : ℕ) (hlen : buf.length = cap)
    (hr : r < cap) (hn : n ≤ a) (ha : a ≤ cap) :
    (buf.drop ((r + n) % cap) ++ buf.take ((r + n) % cap)).take (a - n) =
      ((buf.drop r ++ buf.take r).take a).drop n := by
  have hcap : 0 < cap := lt_of_le_of_lt (Nat.zero_le r) hr
  have hrot1 : buf.drop ((r + n) % cap) ++ buf.take ((r + n) % cap) =
      buf.rotate ((r + n) % cap) :=
    (List.rotate_eq_drop_append_take
      (by rw [hlen]; exact le_of_lt (Nat.mod_lt _ hcap))).symm
  have hrot2 : buf.rotate ((r + n) % cap) = (buf.rotate r).rotate n := by
    rw [← hlen, List.rotate_mod, List.rotate_rotate]
  have hrotr : buf.rotate r = buf.drop r ++ buf.take r :=
    List.rotate_eq_drop_append_take (by rw [hlen]; omega)
  have hRlen : (buf.drop r ++ buf.take r).length = cap := by
    rw [List.length_append, List.length_drop, List.length_take]
    omega
  have hrot3 : (buf.drop r ++ buf.take r).rotate n =
      (buf.drop r ++ buf.take r).drop n ++ (buf.drop r ++ buf.take r).take n :=
    List.rotate_eq_drop_append_take (by rw [hRlen]; omega)
  rw [hrot1, hrot2, hrotr, hrot3,
    List.take_append_of_le_length
      (by rw [List.length_drop, hRlen]; omega),
    List.drop_take]

/-- The copy path of read: taking n of the available elements returns the
first n logical elements, and the advanced state is well formed with the
remaining logical elements. -/
theorem read_core (b : CircularBuffer α) (h : WF b) (n : ℕ)
    (hn : n ≤ b.available) :
    (readLoop b.size b.buffer n b.read_pos).1 = (contents b).take n ∧
    WF ({ b with read_pos := (b.read_pos + n) % b.size,
                 available := b.available - n } : CircularBuffer α) ∧
    contents ({ b with
                  read_pos := (b.read_pos + n) % b.size,
                  available := b.available - n } : CircularBuffer α) =
      (contents b).drop n := by
  obtain ⟨hlen, hr, hw, ha, hwp⟩ := h
  have hcap : 0 < b.size := lt_of_le_of_lt (Nat.zero_le _) hr
  have hloop := readLoop_eq b.size b.buffer n b.read_pos hlen hr (by omega)
  refine ⟨?_, ⟨hlen, Nat.mod_lt _ hcap, hw,
    (by show b.available - n ≤ b.size; omega), ?_⟩, ?_⟩
  · rw [hloop, contents, List.take_take, min_eq_left hn]
  · show b.write_pos = ((b.read_pos + n) % b.size + (b.available - n)) % b.size
    rw [Nat.mod_add_mod, show b.read_pos + n + (b.available - n) =
      b.read_pos + b.available by omega, hwp]
  · show (b.buffer.drop ((b.read_pos + n) % b.size) ++
          b.buffer.take ((b.read_pos + n) % b.size)).take (b.available - n) =
        (contents b).drop n
    rw [contents_rotate b.buffer b.size b.read_pos n b.available hlen hr hn ha]
    rfl

/-- Effect of CircularBuffer.read on a well formed buffer for the size
arguments the pipeline uses: None or a nonnegative count.  Read returns
the first min(size, available) logical elements, advances the read cursor
by that count and keeps the buffer well formed. -/
theorem read_spec (b : CircularBuffer α) (h : WF b) (sz : Option ℕ) :
    (b.read (sz.map (fun n : ℕ => (n : ℤ)))).1 =
      (contents b).take (min (sz.getD b.available) b.available) ∧
    (b.read (sz.map (fun n : ℕ => (n : ℤ)))).2 =
      { b with
          read_pos :=
            (b.read_pos + min (sz.getD b.available) b.available) % b.size,
          available :=
            b.available - min (sz.getD b.available) b.available } ∧
    WF (b.read (sz.map (fun n : ℕ => (n : ℤ)))).2 ∧
    contents (b.read (sz.map (fun n : ℕ => (n : ℤ)))).2 =
      (contents b).drop (min (sz.getD b.available) b.available) := by
  obtain ⟨hlen, hr, hw, ha, hwp⟩ := h
  have hWF : WF b := ⟨hlen, hr, hw, ha, hwp⟩
  have hid : ({ b with
                  read_pos := (b.read_pos + 0) % b.size,
                  available := b.available - 0 } : CircularBuffer α) = b := by
    rw [show (b.read_pos + 0) % b.size = b.read_pos by
      rw [Nat.add_zero, Nat.mod_eq_of_lt hr]]
    rfl
  by_cases h0 : b.available = 0
  · have hmin : min (sz.getD b.available) b.available = 0 := by
      rw [h0, Nat.min_zero]
    have hread : b.read (sz.map (fun n : ℕ => (n : ℤ))) = ([], b) := by
      unfold CircularBuffer.read
      rw [if_pos h0]
    rw [hread, hmin]
    exact ⟨by simp, hid.symm, hWF, by simp⟩
  · rcases sz with _ | k
    · have hgd : min ((none : Option ℕ).getD b.available) b.available
          = b.available := by simp
      have htn : ((b.available : ℤ)).toNat = b.available := by omega
      have hread : b.read ((none : Option ℕ).map (fun n : ℕ => (n : ℤ))) =
          ((readLoop b.size b.buffer b.available b.read_pos).1,
           { b with
               read_pos := (readLoop b.size b.buffer b.available b.read_pos).2,
               available := b.available - b.available }) := by
        show b.read none = _
        unfold CircularBuffer.read
        rw [if_neg h0]
        simp only [CircularBuffer.readSize]
        rw [if_neg (by exact_mod_cast h0), if_neg (by omega), htn]
      obtain ⟨c1, c2, c3⟩ := read_core b hWF b.available le_rfl
      have hloop := readLoop_eq b.size b.buffer b.available b.read_pos hlen hr ha
      have e2 : (readLoop b.size b.buffer b.available b.read_pos).2 =
          (b.read_pos + b.available) % b.size := by rw [hloop]
      rw [hread, hgd, e2]
      exact ⟨c1, rfl, c2, c3⟩
    · have hgd : min ((some k : Option ℕ).getD b.available) b.available
          = min k b.available := by simp
      have hmap : (some k : Option ℕ).map (fun n : ℕ => (n : ℤ)) =
          some ((k : ℤ)) := rfl
      have hsize : b.readSize (some ((k : ℤ))) =
          min (k : ℤ) (b.available : ℤ) := rfl
      by_cases hk : min k b.available = 0
      · have hread : b.read ((some k : Option ℕ).map (fun n : ℕ => (n : ℤ)))
            = ([], b) := by
          rw [hmap]
          unfold CircularBuffer.read
          rw [if_neg h0]
          simp only [CircularBuffer.readSize]
          rw [if_pos (by omega)]
        rw [hread, hgd, hk]
        exact ⟨by simp, hid.symm, hWF, by simp⟩
      · have htn : (min (k : ℤ) (b.available : ℤ)).toNat = min k b.available := by
          omega
        have hread : b.read ((some k : Option ℕ).map (fun n : ℕ => (n : ℤ))) =
            ((readLoop b.size b.buffer (min k b.available) b.read_pos).1,
             { b with
                 read_pos :=
                   (readLoop b.size b.buffer (min k b.available) b.read_pos).2,
                 available := b.available - min k b.available }) := by
          rw [hmap]
          unfold CircularBuffer.read
          rw [if_neg h0]
          simp only [CircularBuffer.readSize]
          rw [if_neg (by omega), if_neg (by omega), htn]
        obtain ⟨c1, c2, c3⟩ := read_core b hWF (min k b.available)
          (min_le_right _ _)
        have hloop := readLoop_eq b.size b.buffer (min k b.available)
          b.read_pos hlen hr (le_trans (min_le_right _ _) ha)
        have e2 : (readLoop b.size b.buffer (min k b.available) b.read_pos).2 =
            (b.read_pos + min k b.available) % b.size := by rw [hloop]
        rw [hread, hgd, e2]
        exact ⟨c1, rfl, c2, c3⟩

/-! ### Write: the copied region lands at the logical end of the contents

Three cursor layouts: the write cursor has already wrapped behind the
read cursor (cap ≤ r + a), or it sits after the read cursor and the new
data fits before the end of the storage, or the new data itself wraps. -/

theorem rot_write_wrap_pos (buf payload : List α) (cap r a : ℕ)
    (hlen : buf.length = cap) (hr : r < cap) (ha : a ≤ cap)
    (hp : payload.length ≤ cap - a) (h3 : cap ≤ r + a) :
    ((buf.take (r + a - cap) ++ payload ++
        buf.drop (r + a - cap + payload.length)).drop r ++
      (buf.take (r + a - cap) ++ payload ++
        buf.drop (r + a - cap + payload.length)).take r).take
      (a + payload.length) =
      (buf.drop r ++ buf.take r).take a ++ payload := by
  set w := r + a - cap with hwdef
  set d := payload.length with hddef
  have hwr : w + d ≤ r := by omega
  have htkw : (buf.take w).length = w := by
    rw [List.length_take]; omega
  have hAlen : (buf.take w ++ payload).length = w + d := by
    rw [List.length_append, htkw, hddef]
  have hdroplen : (buf.drop r).length = cap - r := by
    rw [List.length_drop, hlen]
  have e1 : (buf.take w ++ payload ++ buf.drop (w + d)).drop r =
      buf.drop r := by
    have b1 : ((buf.take w ++ payload) ++ buf.drop (w + d)).drop
        ((buf.take w ++ payload).length + (r - (w + d))) =
        (buf.drop (w + d)).drop (r - (w + d)) := List.drop_append _
    have b2 : (buf.take w ++ payload).length + (r - (w + d)) = r := by
      rw [hAlen]; omega
    rw [b2] at b1
    rw [b1, List.drop_drop]
    congr 1
    omega
  have e2 : (buf.take w ++ payload ++ buf.drop (w + d)).take r =
      (buf.take w ++ payload) ++ (buf.drop (w + d)).take (r - (w + d)) := by
    have b1 : ((buf.take w ++ payload) ++ buf.drop (w + d)).take
        ((buf.take w ++ payload).length + (r - (w + d))) =
        (buf.take w ++ payload) ++ (buf.drop (w + d)).take (r - (w + d)) :=
      List.take_append _
    have b2 : (buf.take w ++ payload).length + (r - (w + d)) = r := by
      rw [hAlen]; omega
    rw [b2] at b1
    exact b1
  rw [e1, e2]
  have e3 : (buf.drop r ++
      ((buf.take w ++ payload) ++ (buf.drop (w + d)).take (r - (w + d)))).take
      (a + d) = buf.drop r ++
      ((buf.take w ++ payload) ++
        (buf.drop (w + d)).take (r - (w + d))).take (w + d) := by
    have b1 : (buf.drop r ++
        ((buf.take w ++ payload) ++ (buf.drop (w + d)).take (r - (w + d)))).take
        ((buf.drop r).length + (w + d)) = buf.drop r ++
        ((buf.take w ++ payload) ++
          (buf.drop (w + d)).take (r - (w + d))).take (w + d) :=
      List.take_append _
    have b2 : (buf.drop r).length + (w + d) = a + d := by
      rw [hdroplen]; omega
    rw [b2] at b1
    exact b1
  have e4 : ((buf.take w ++ payload) ++
      (buf.drop (w + d)).take (r - (w + d))).take (w + d) =
      buf.take w ++ payload := by
    have b1 : ((buf.take w ++ payload) ++
        (buf.drop (w + d)).take (r - (w + d))).take
        ((buf.take w ++ payload).length + 0) =
        (buf.take w ++ payload) ++
          ((buf.drop (w + d)).take (r - (w + d))).take 0 :=
      List.take_append _
    rw [hAlen, Nat.add_zero, List.take_zero, List.append_nil] at b1
    exact b1
  have e5 : (buf.drop r ++ buf.take r).take a = buf.drop r ++ buf.take w := by
    have b1 : (buf.drop r ++ buf.take r).take ((buf.drop r).length + w) =
        buf.drop r ++ (buf.take r).take w := List.take_append _
    have b2 : (buf.drop r).length + w = a := by rw [hdroplen]; omega
    rw [b2, List.take_take, min_eq_left (by omega)] at b1
    exact b1
  rw [e3, e4, e5, List.append_assoc]

theorem rot_write_mid_no_wrap (buf payload : List α) (cap r a : ℕ)
    (hlen : buf.length = cap) (hr : r < cap) (ha : a ≤ cap)
    (h3 : r + a < cap) (h4 : r + a + payload.length ≤ cap) :
    ((buf.take (r + a) ++ payload ++
        buf.drop (r + a + payload.length)).drop r ++
      (buf.take (r + a) ++ payload ++
        buf.drop (r + a + payload.length)).take r).take
      (a + payload.length) =
      (buf.drop r ++ buf.take r).take a ++ payload := by
  set d := payload.length with hddef
  have htk : (buf.take (r + a)).length = r + a := by
    rw [List.length_take]; omega
  have hTlen : ((buf.drop r).take a).length = a := by
    rw [List.length_take, List.length_drop, hlen]; omega
  have e1 : (buf.take (r + a) ++ payload ++ buf.drop (r + a + d)).drop r =
      ((buf.drop r).take a ++ payload) ++ buf.drop (r + a + d) := by
    rw [List.drop_append_of_le_length
        (by rw [List.length_append, htk]; omega),
      List.drop_append_of_le_length (by rw [htk]; omega),
      List.drop_take, Nat.add_sub_cancel_left]
  have e2 : (buf.take (r + a) ++ payload ++ buf.drop (r + a + d)).take r =
      buf.take r := by
    rw [List.take_append_of_le_length
        (by rw [List.length_append, htk]; omega),
      List.take_append_of_le_length (by rw [htk]; omega),
      List.take_take, min_eq_left (by omega)]
  rw [e1, e2, List.append_assoc, List.append_assoc]
  have e3 : ((buf.drop r).take a ++
      (payload ++ (buf.drop (r + a + d) ++ buf.take r))).take (a + d) =
      (buf.drop r).take a ++
        (payload ++ (buf.drop (r + a + d) ++ buf.take r)).take d := by
    have b1 : ((buf.drop r).take a ++
        (payload ++ (buf.drop (r + a + d) ++ buf.take r))).take
        (((buf.drop r).take a).length + d) =
        (buf.drop r).take a ++
          (payload ++ (buf.drop (r + a + d) ++ buf.take r)).take d :=
      List.take_append _
    rw [hTlen] at b1
    exact b1
  have e4 : (payload ++ (buf.drop (r + a + d) ++ buf.take r)).take d =
      payload := by
    have b1 : (payload ++ (buf.drop (r + a + d) ++ buf.take r)).take
        (payload.length + 0) =
        payload ++ (buf.drop (r + a + d) ++ buf.take r).take 0 :=
      List.take_append _
    rw [Nat.add_zero, List.take_zero, List.append_nil, ← hddef] at b1
    exact b1
  have e5 : (buf.drop r ++ buf.take r).take a = (buf.drop r).take a :=
    List.take_append_of_le_length (by rw [List.length_drop, hlen]; omega)
  rw [e3, e4, e5]

theorem rot_write_mid_wrap (buf payload : List α) (cap r a : ℕ)
    (hlen : buf.length = cap) (hr : r < cap) (ha : a ≤ cap)
    (hp : payload.length ≤ cap - a) (h3 : r + a < cap)
    (h4 : cap < r + a + payload.length) :
    ((payload.drop (cap - (r + a)) ++
        (buf.take (r + a)).drop (payload.length - (cap - (r + a))) ++
        payload.take (cap - (r + a))).drop r ++
      (payload.drop (cap - (r + a)) ++
        (buf.take (r + a)).drop (payload.length - (cap - (r + a))) ++
        payload.take (cap - (r + a))).take r).take (a + payload.length) =
      (buf.drop r ++ buf.take r).take a ++ payload := by
  set k := cap - (r + a) with hkdef
  set d := payload.length with hddef
  set d2 := d - k with hd2def
  have hd2r : d2 ≤ r := by omega
  have hkd : k ≤ d := by omega
  have htk : (buf.take (r + a)).length = r + a := by
    rw [List.length_take]; omega
  have hpdk : (payload.drop k).length = d2 := by
    rw [List.length_drop]
  have hbdk : ((buf.take (r + a)).drop d2).length = r + a - d2 := by
    rw [List.length_drop, htk]
  have hAlen : (payload.drop k ++ (buf.take (r + a)).drop d2).length =
      r + a := by
    rw [List.length_append, hpdk, hbdk]; omega
  have hTlen : ((buf.drop r).take a).length = a := by
    rw [List.length_take, List.length_drop, hlen]; omega
  have e1 : (payload.drop k ++ (buf.take (r + a)).drop d2 ++
      payload.take k).drop r =
      (buf.drop r).take a ++ payload.take k := by
    rw [List.drop_append_of_le_length (by rw [hAlen]; omega)]
    congr 1
    have b1 : (payload.drop k ++ (buf.take (r + a)).drop d2).drop
        ((payload.drop k).length + (r - d2)) =
        ((buf.take (r + a)).drop d2).drop (r - d2) := List.drop_append _
    have b2 : (payload.drop k).length + (r - d2) = r := by
      rw [hpdk]; omega
    rw [b2] at b1
    rw [b1, List.drop_drop,
      show d2 + (r - d2) = r by omega, List.drop_take,
      show r + a - r = a by omega]
  have e2 : (payload.drop k ++ (buf.take (r + a)).drop d2 ++
      payload.take k).take r =
      payload.drop k ++ ((buf.take (r + a)).drop d2).take (r - d2) := by
    rw [List.take_append_of_le_length (by rw [hAlen]; omega)]
    have b1 : (payload.drop k ++ (buf.take (r + a)).drop d2).take
        ((payload.drop k).length + (r - d2)) =
        payload.drop k ++ ((buf.take (r + a)).drop d2).take (r - d2) :=
      List.take_append _
    have b2 : (payload.drop k).length + (r - d2) = r := by
      rw [hpdk]; omega
    rw [b2] at b1
    exact b1
  rw [e1, e2, List.append_assoc]
  have e3 : ((buf.drop r).take a ++
      (payload.take k ++
        (payload.drop k ++
          ((buf.take (r + a)).drop d2).take (r - d2)))).take (a + d) =
      (buf.drop r).take a ++
        (payload.take k ++
          (payload.drop k ++
            ((buf.take (r + a)).drop d2).take (r - d2))).take d := by
    have b1 : ((buf.drop r).take a ++
        (payload.take k ++
          (payload.drop k ++
            ((buf.take (r + a)).drop d2).take (r - d2)))).take
        (((buf.drop r).take a).length + d) =
        (buf.drop r).take a ++
          (payload.take k ++
            (payload.drop k ++
              ((buf.take (r + a)).drop d2).take (r - d2))).take d :=
      List.take_append _
    rw [hTlen] at b1
    exact b1
  have e4 : (payload.take k ++
      (payload.drop k ++
        ((buf.take (r + a)).drop d2).take (r - d2))).take d = payload := by
    have b1 : (payload.take k ++
        (payload.drop k ++
          ((buf.take (r + a)).drop d2).take (r - d2))).take
        ((payload.take k).length + d2) =
        payload.take k ++
          (payload.drop k ++
            ((buf.take (r + a)).drop d2).take (r - d2)).take d2 :=
      List.take_append _
    have b2 : (payload.take k).length + d2 = d := by
      rw [List.length_take]; omega
    rw [b2] at b1
    rw [b1, List.take_append_of_le_length (by rw [hpdk]),
      List.take_of_length_le (le_of_eq hpdk), List.take_append_drop]
  have e5 : (buf.drop r ++ buf.take r).take a = (buf.drop r).take a :=
    List.take_append_of_le_length (by rw [List.length_drop, hlen]; omega)
  rw [e3, e4, e5]

/-- The copy path of write: appending a payload that fits into the free
space keeps the storage size, lands the write cursor payload.length
positions further and appends the payload to the logical contents. -/
theorem write_core (b : CircularBuffer α) (h : WF b) (payload : List α)
    (hp : payload.length ≤ b.size - b.available) :
    (writeLoop b.size b.buffer payload b.write_pos).1.length = b.size ∧
    (writeLoop b.size b.buffer payload b.write_pos).2 =
      (b.write_pos + payload.length) % b.size ∧
    WF ({ b with
            buffer := (writeLoop b.size b.buffer payload b.write_pos).1,
            write_pos := (writeLoop b.size b.buffer payload b.write_pos).2,
            available := b.available + payload.length } : CircularBuffer α) ∧
    contents ({ b with
                  buffer := (writeLoop b.size b.buffer payload b.write_pos).1,
                  write_pos := (writeLoop b.size b.buffer payload b.write_pos).2,
                  available := b.available + payload.length } :
              CircularBuffer α) =
      contents b ++ payload := by
  obtain ⟨hlen, hr, hw, ha, hwp⟩ := h
  have hcap : 0 < b.size := lt_of_le_of_lt (Nat.zero_le _) hr
  have main : (writeLoop b.size b.buffer payload b.write_pos).1.length =
        b.size ∧
      (writeLoop b.size b.buffer payload b.write_pos).2 =
        (b.write_pos + payload.length) % b.size ∧
      ((writeLoop b.size b.buffer payload b.write_pos).1.drop b.read_pos ++
        (writeLoop b.size b.buffer payload b.write_pos).1.take
          b.read_pos).take (b.available + payload.length) =
        contents b ++ payload := by
    by_cases h3 : b.size ≤ b.read_pos + b.available
    · have hwp3 : b.write_pos = b.read_pos + b.available - b.size := by
        rw [hwp, Nat.mod_eq_sub_mod h3, Nat.mod_eq_of_lt (by omega)]
      have hW : writeLoop b.size b.buffer payload b.write_pos =
          (b.buffer.take (b.read_pos + b.available - b.size) ++ payload ++
             b.buffer.drop (b.read_pos + b.available - b.size +
               payload.length),
           (b.read_pos + b.available - b.size + payload.length) % b.size) := by
        rw [hwp3]
        exact writeLoopF_no_wrap _ _ _ _ _ le_rfl (by omega) (by omega)
      refine ⟨?_, ?_, ?_⟩
      · rw [hW]
        simp only [List.length_append, List.length_take, List.length_drop,
          hlen]
        omega
      · rw [hW, hwp3]
      · rw [hW]
        exact rot_write_wrap_pos b.buffer payload b.size b.read_pos
          b.available hlen hr ha hp h3
    · have hwp2 : b.write_pos = b.read_pos + b.available := by
        rw [hwp, Nat.mod_eq_of_lt (by omega)]
      by_cases h4 : b.read_pos + b.available + payload.length ≤ b.size
      · have hW : writeLoop b.size b.buffer payload b.write_pos =
            (b.buffer.take (b.read_pos + b.available) ++ payload ++
               b.buffer.drop (b.read_pos + b.available + payload.length),
             (b.read_pos + b.available + payload.length) % b.size) := by
          rw [hwp2]
          exact writeLoopF_no_wrap _ _ _ _ _ le_rfl (by omega) (by omega)
        refine ⟨?_, ?_, ?_⟩
        · rw [hW]
          simp only [List.length_append, List.length_take, List.length_drop,
            hlen]
          omega
        · rw [hW, hwp2]
        · rw [hW]
          exact rot_write_mid_no_wrap b.buffer payload b.size b.read_pos
            b.available hlen hr ha (by omega) h4
      · have hW : writeLoop b.size b.buffer payload b.write_pos =
            (payload.drop (b.size - (b.read_pos + b.available)) ++
               (b.buffer.take (b.read_pos + b.available)).drop
                 (payload.length - (b.size - (b.read_pos + b.available))) ++
               payload.take (b.size - (b.read_pos + b.available)),
             (b.read_pos + b.available + payload.length) % b.size) := by
          rw [hwp2]
          exact writeLoopF_wrap _ _ _ _ _ le_rfl hlen (by omega) (by omega)
            (by omega)
        refine ⟨?_, ?_, ?_⟩
        · rw [hW]
          simp only [List.length_append, List.length_take, List.length_drop,
            hlen]
          omega
        · rw [hW, hwp2]
        · rw [hW]
          exact rot_write_mid_wrap b.buffer payload b.size b.read_pos
            b.available hlen hr ha hp (by omega) (by omega)
  obtain ⟨m1, m2, m3⟩ := main
  refine ⟨m1, m2, ⟨m1, hr, ?_, ?_, ?_⟩, m3⟩
  · show (writeLoop b.size b.buffer payload b.write_pos).2 < b.size
    rw [m2]
    exact Nat.mod_lt _ hcap
  · show b.available + payload.length ≤ b.size
    omega
  · show (writeLoop b.size b.buffer payload b.write_pos).2 =
      (b.read_pos + (b.available + payload.length)) % b.size
    rw [m2, hwp, Nat.mod_add_mod,
      show b.read_pos + b.available + payload.length =
        b.read_pos + (b.available + payload.length) by omega]

/-- A full buffer rejects every write: the count is zero and the state is
untouched. -/
theorem write_full (b : CircularBuffer α) (data : List α)
    (hf : b.available = b.size) : b.write data = (0, b) := by
  unfold CircularBuffer.write
  by_cases hdl : (data.length : ℤ) = 0
  · rw [if_pos hdl]
  · rw [if_neg hdl, if_pos (by omega), if_pos (by omega)]

/-- Effect of CircularBuffer.write on a well formed buffer: exactly
min(len(data), size - available) leading elements are appended, that
count is returned and the storage is never resized. -/
theorem write_spec (b : CircularBuffer α) (h : WF b) (data : List α) :
    (b.write data).1 = (min data.length (b.size - b.available) : ℕ) ∧
    WF (b.write data).2 ∧
    (b.write data).2.size = b.size ∧
    (b.write data).2.buffer.length = b.buffer.length ∧
    (b.write data).2.read_pos = b.read_pos ∧
    (b.write data).2.available =
      b.available + min data.length (b.size - b.available) ∧
    contents (b.write data).2 =
      contents b ++ data.take (min data.length (b.size - b.available)) := by
  obtain ⟨hlen, hr, hw, ha, hwp⟩ := h
  have hWF : WF b := ⟨hlen, hr, hw, ha, hwp⟩
  rcases Nat.eq_zero_or_pos data.length with hd0 | hdpos
  · have hdnil : data = [] := List.eq_nil_of_length_eq_zero hd0
    subst hdnil
    have hwr : b.write [] = (0, b) := by
      unfold CircularBuffer.write
      rw [if_pos (by simp)]
    rw [hwr]
    refine ⟨by simp, hWF, rfl, rfl, rfl, by simp, by simp⟩
  · by_cases hfree : b.size - b.available < data.length
    · rcases Nat.eq_zero_or_pos (b.size - b.available) with hf0 | hfpos
      · have hmin : min data.length (b.size - b.available) = 0 := by omega
        have hwr : b.write data = (0, b) := by
          unfold CircularBuffer.write
          rw [if_neg (by omega), if_pos (by omega), if_pos (by omega)]
        rw [hwr, hmin]
        refine ⟨by simp, hWF, rfl, rfl, rfl, by simp, by simp⟩
      · -- partial write of the leading size - available elements
        have hmin : min data.length (b.size - b.available) =
            b.size - b.available := by omega
        have htn : ((b.size : ℤ) - (b.available : ℤ)).toNat =
            b.size - b.available := by omega
        have hwr : b.write data =
            (((b.size : ℤ) - (b.available : ℤ)),
             { b with
                 buffer := (writeLoop b.size b.buffer
                   (data.take (b.size - b.available)) b.write_pos).1,
                 write_pos := (writeLoop b.size b.buffer
                   (data.take (b.size - b.available)) b.write_pos).2,
                 available := b.available + (b.size - b.available) }) := by
          unfold CircularBuffer.write
          rw [if_neg (by omega), if_pos (by omega), if_neg (by omega),
            if_neg (by omega), htn]
        have hplen : (data.take (b.size - b.available)).length =
            b.size - b.available := by
          rw [List.length_take]; omega
        obtain ⟨c1, c2, c3, c4⟩ := write_core b hWF
          (data.take (b.size - b.available)) (le_of_eq hplen)
        rw [hwr, hmin]
        refine ⟨by push_cast; omega, ?_, rfl, ?_, rfl, rfl, ?_⟩
        · rw [hplen] at c3
          exact c3
        · show (writeLoop b.size b.buffer
            (data.take (b.size - b.available)) b.write_pos).1.length =
            b.buffer.length
          rw [c1, hlen]
        · rw [hplen] at c4
          exact c4
    · -- the whole data fits
      have hmin : min data.length (b.size - b.available) = data.length := by
        omega
      have hwr : b.write data =
          ((data.length : ℤ),
           { b with
               buffer := (writeLoop b.size b.buffer data b.write_pos).1,
               write_pos := (writeLoop b.size b.buffer data b.write_pos).2,
               available := b.available + data.length }) := by
        unfold CircularBuffer.write
        rw [if_neg (by omega), if_neg (by omega)]
      obtain ⟨c1, c2, c3, c4⟩ := write_core b hWF data (by omega)
      rw [hwr, hmin]
      refine ⟨rfl, ?_, rfl, ?_, rfl, rfl, ?_⟩
      · exact c3
      · show (writeLoop b.size b.buffer data b.write_pos).1.length =
          b.buffer.length
        rw [c1, hlen]
      · rw [List.take_of_length_le (by omega)]
        exact c4

/-- Simulation invariant: along any trace from a well formed buffer, the
elements returned by reads followed by the elements still buffered are
exactly the old contents followed by all accepted written elements. -/
theorem runTrace_fifo (ops : List (BufOp α)) :
    ∀ b : CircularBuffer α, WF b →
      (runTrace b ops).1 ++ contents (runTrace b ops).2.2 =
        contents b ++ (runTrace b ops).2.1 := by
  induction ops with
  | nil => intro b hb; simp [runTrace]
  | cons op ops ih =>
    intro b hb
    cases op with
    | write data =>
      obtain ⟨w1, w2, _, _, _, _, w7⟩ := write_spec b hb data
      have htn : (b.write data).1.toNat =
          min data.length (b.size - b.available) := by
        rw [w1]; omega
      simp only [runTrace]
      rw [ih _ w2, w7, htn, List.append_assoc]
    | read sz =>
      obtain ⟨r1, _, r3, r4⟩ := read_spec b hb sz
      simp only [runTrace]
      rw [List.append_assoc, ih _ r3, r4, r1, ← List.append_assoc,
        List.take_append_drop]

/-- A fresh buffer of positive capacity is well formed. -/
theorem init_wf (C : ℕ) (hC : 1 ≤ C) (fill : α) :
    WF (CircularBuffer.init C fill) := by
  refine ⟨by simp [CircularBuffer.init], ?_, ?_, ?_, ?_⟩ <;>
    simp [CircularBuffer.init] <;> omega

/-- A fresh buffer holds no elements. -/
theorem init_contents (C : ℕ) (fill : α) :
    contents (CircularBuffer.init C fill) = [] := by
  simp [contents, CircularBuffer.init]

/-- C1: Ring buffer FIFO law.  For every capacity C at least 1 and every
sequence of write calls interleaved with read calls (including sequences
that wrap the cursors past the end of the storage), the items returned by
the reads followed by the items still buffered equal, in order, the
concatenation of the accepted written items: reads always yield the
consumed prefix of the accepted writes, the same logical sequence an
unbounded FIFO queue would yield. -/
theorem ring_buffer_fifo_law (C : ℕ) (hC : 1 ≤ C) (fill : α)
    (ops : List (BufOp α)) :
    (runTrace (CircularBuffer.init C fill) ops).1 ++
      contents (runTrace (CircularBuffer.init C fill) ops).2.2 =
      (runTrace (CircularBuffer.init C fill) ops).2.1 := by
  have h := runTrace_fifo ops _ (init_wf C hC fill)
  rw [init_contents, List.nil_append] at h
  exact h

/-- Witness for C1 at the wraparound example of the specification:
capacity 10, write 7 items, read 5, write 8 more (the second write wraps
both cursors). -/
theorem ring_buffer_fifo_law_witness :
    1 ≤ 10 ∧
    ((runTrace (CircularBuffer.init 10 (0 : ℕ))
        [BufOp.write [1, 2, 3, 4, 5, 6, 7], BufOp.read (some 5),
         BufOp.write [8, 9, 10, 11, 12, 13, 14, 15]]).1 ++
      contents (runTrace (CircularBuffer.init 10 (0 : ℕ))
        [BufOp.write [1, 2, 3, 4, 5, 6, 7], BufOp.read (some 5),
         BufOp.write [8, 9, 10, 11, 12, 13, 14, 15]]).2.2 =
      (runTrace (CircularBuffer.init 10 (0 : ℕ))
        [BufOp.write [1, 2, 3, 4, 5, 6, 7], BufOp.read (some 5),
         BufOp.write [8, 9, 10, 11, 12, 13, 14, 15]]).2.1) :=
  ⟨by decide, ring_buffer_fifo_law 10 (by decide) 0
    [BufOp.write [1, 2, 3, 4, 5, 6, 7], BufOp.read (some 5),
     BufOp.write [8, 9, 10, 11, 12, 13, 14, 15]]⟩

/-- C6: Write contract.  On a well formed buffer, write(data) appends
exactly min(len(data), capacity - available) leading items of data,
returns that count, never resizes the storage, and on a full buffer
writes nothing, returns 0 and leaves the state unchanged. -/
theorem write_contract (b : CircularBuffer α) (h : WF b) (data : List α) :
    (b.write data).1 = (min data.length (b.size - b.available) : ℕ) ∧
    contents (b.write data).2 =
      contents b ++ data.take (min data.length (b.size - b.available)) ∧
    (b.write data).2.buffer.length = b.buffer.length ∧
    (b.write data).2.size = b.size ∧
    (b.available = b.size → b.write data = (0, b)) := by
  obtain ⟨w1, _, w3, w4, _, _, w7⟩ := write_spec b h data
  exact ⟨w1, w7, w4, w3, fun hf => write_full b data hf⟩

/-- Witness for C6: a buffer of capacity 3 holding one element accepts
exactly the two leading items of a four item write. -/
theorem write_contract_witness :
    WF (((CircularBuffer.init 3 (0 : ℕ)).write [9]).2) ∧
    (((((CircularBuffer.init 3 (0 : ℕ)).write [9]).2).write [1, 2, 3, 4]).1 =
      (min ([1, 2, 3, 4] : List ℕ).length
        ((((CircularBuffer.init 3 (0 : ℕ)).write [9]).2).size -
          (((CircularBuffer.init 3 (0 : ℕ)).write [9]).2).available) : ℕ) ∧
    contents (((((CircularBuffer.init 3 (0 : ℕ)).write [9]).2).write
        [1, 2, 3, 4]).2) =
      contents (((CircularBuffer.init 3 (0 : ℕ)).write [9]).2) ++
        ([1, 2, 3, 4] : List ℕ).take
          (min ([1, 2, 3, 4] : List ℕ).length
            ((((CircularBuffer.init 3 (0 : ℕ)).write [9]).2).size -
              (((CircularBuffer.init 3 (0 : ℕ)).write [9]).2).available)) ∧
    (((((CircularBuffer.init 3 (0 : ℕ)).write [9]).2).write
        [1, 2, 3, 4]).2).buffer.length =
      (((CircularBuffer.init 3 (0 : ℕ)).write [9]).2).buffer.length ∧
    (((((CircularBuffer.init 3 (0 : ℕ)).write [9]).2).write
        [1, 2, 3, 4]).2).size =
      (((CircularBuffer.init 3 (0 : ℕ)).write [9]).2).size ∧
    ((((CircularBuffer.init 3 (0 : ℕ)).write [9]).2).available =
        (((CircularBuffer.init 3 (0 : ℕ)).write [9]).2).size →
      (((CircularBuffer.init 3 (0 : ℕ)).write [9]).2).write [1, 2, 3, 4] =
        (0, ((CircularBuffer.init 3 (0 : ℕ)).write [9]).2))) :=
  ⟨by decide, write_contract _ (by decide) [1, 2, 3, 4]⟩

/-- C2 (code bug evaluation): the capacity invariant is breakable through
the negative size path of read.  On a capacity 1 buffer holding one
element, read(-1) leaves available = 2, strictly above the capacity, so
0 ≤ available ≤ capacity does not survive arbitrary argument values. -/
theorem capacity_invariant_violation :
    ((((CircularBuffer.init 1 (0 : ℕ)).write [7]).2).read
        (some (-1))).2.get_available = 2 ∧
    ((((CircularBuffer.init 1 (0 : ℕ)).write [7]).2).read
        (some (-1))).2.size = 1 ∧
    ¬ (((((CircularBuffer.init 1 (0 : ℕ)).write [7]).2).read
          (some (-1))).2.get_available ≤
        ((((CircularBuffer.init 1 (0 : ℕ)).write [7]).2).read
          (some (-1))).2.size) := by
  decide

/-- C8 (code bug evaluation): a negative read size is not rejected at the
call boundary.  On a capacity 2 buffer holding one element, read(-1)
returns normally with an empty result and silently mutates the state,
increasing available by one. -/
theorem negative_read_size_not_rejected :
    ((((CircularBuffer.init 2 (0 : ℕ)).write [5]).2).read (some (-1))).1 =
      [] ∧
    ((((CircularBuffer.init 2 (0 : ℕ)).write [5]).2).read
        (some (-1))).2.available =
      (((CircularBuffer.init 2 (0 : ℕ)).write [5]).2).available + 1 ∧
    ((((CircularBuffer.init 2 (0 : ℕ)).write [5]).2).read (some (-1))).2 ≠
      (((CircularBuffer.init 2 (0 : ℕ)).write [5]).2) := by
  decide


/-! ### Parser lemmas -/

theorem get?_eq_getD (l : List Byte) (i : ℕ) (h : i < l.length) :
    l.get? i = some (l.getD i 0) := by
  rw [List.getD_eq_getElem?_getD, List.get?_eq_getElem?]
  cases hh : l[i]? with
  | none =>
    rw [List.getElem?_eq_none_iff] at hh
    omega
  | some v => simp

theorem slice_two (l : List Byte) (i : ℕ) (h : i + 2 ≤ l.length) :
    (l.drop i).take 2 = [l.getD i 0, l.getD (i + 1) 0] := by
  induction i generalizing l with
  | zero =>
    rcases l with _ | ⟨x, _ | ⟨y, t⟩⟩
    · simp at h
    · simp at h
    · rfl
  | succ i ih =>
    rcases l with _ | ⟨x, t⟩
    · simp at h
    · simp only [List.drop_succ_cons, List.getD_cons_succ]
      exact ih t (by simp at h; omega)

theorem leVal_pair (lo hi : Byte) : leVal [lo, hi] = toUInt16LE lo hi := by
  simp [leVal, toUInt16LE]

theorem leValSigned_pair (lo hi : Byte) :
    leValSigned [lo, hi] = toInt16LE lo hi := by
  have h : leVal [lo, hi] = lo.val + 256 * hi.val := by simp [leVal]
  rw [leValSigned, toInt16LE, h]
  norm_num

theorem sliceI16_eq (fd : List Byte) (i : ℕ) (h : i + 2 ≤ fd.length) :
    sliceI16 fd i = toInt16LE (fd.getD i 0) (fd.getD (i + 1) 0) := by
  rw [sliceI16, slice_two fd i h, leValSigned_pair]

theorem sliceU16_eq (fd : List Byte) (i : ℕ) (h : i + 2 ≤ fd.length) :
    sliceU16 fd i = toUInt16LE (fd.getD i 0) (fd.getD (i + 1) 0) := by
  rw [sliceU16, slice_two fd i h, leVal_pair]

/-- On a 38 byte body every direct index access of the parser is in
bounds, so the parser always builds the frame and only then branches on
the tail byte. -/
theorem parse_data_frame_spec (body : List Byte) (h38 : body.length = 38) :
    parse_data_frame body =
      if (body.getD 37 0).val ≠ 0x33 then
        ParseResult.tailError
          (DataFrame.mk
            ![⟨sliceI16 body 2, sliceI16 body 8, sliceI16 body 14,
                (body.getD 24 0).val, (body.getD 28 0).val,
                currentOf (sliceI16 body 8) (body.getD 24 0).val⟩,
              ⟨sliceI16 body 0, sliceI16 body 10, sliceI16 body 16,
                (body.getD 25 0).val, (body.getD 29 0).val,
                currentOf (sliceI16 body 10) (body.getD 25 0).val⟩,
              ⟨sliceI16 body 4, sliceI16 body 12, sliceI16 body 20,
                (body.getD 26 0).val, (body.getD 30 0).val,
                currentOf (sliceI16 body 12) (body.getD 26 0).val⟩,
              ⟨sliceI16 body 6, sliceI16 body 18, sliceI16 body 22,
                (body.getD 27 0).val, (body.getD 31 0).val,
                currentOf (sliceI16 body 18) (body.getD 27 0).val⟩]
            (sliceU16 body 32) (sliceU16 body 34) (body.getD 36 0).val)
          (body.getD 37 0)
      else
        ParseResult.published
          (DataFrame.mk
            ![⟨sliceI16 body 2, sliceI16 body 8, sliceI16 body 14,
                (body.getD 24 0).val, (body.getD 28 0).val,
                currentOf (sliceI16 body 8) (body.getD 24 0).val⟩,
              ⟨sliceI16 body 0, sliceI16 body 10, sliceI16 body 16,
                (body.getD 25 0).val, (body.getD 29 0).val,
                currentOf (sliceI16 body 10) (body.getD 25 0).val⟩,
              ⟨sliceI16 body 4, sliceI16 body 12, sliceI16 body 20,
                (body.getD 26 0).val, (body.getD 30 0).val,
                currentOf (sliceI16 body 12) (body.getD 26 0).val⟩,
              ⟨sliceI16 body 6, sliceI16 body 18, sliceI16 body 22,
                (body.getD 27 0).val, (body.getD 31 0).val,
                currentOf (sliceI16 body 18) (body.getD 27 0).val⟩]
            (sliceU16 body 32) (sliceU16 body 34) (body.getD 36 0).val) := by
  unfold parse_data_frame
  rw [get?_eq_getD body 24 (by omega), get?_eq_getD body 25 (by omega),
    get?_eq_getD body 26 (by omega), get?_eq_getD body 27 (by omega),
    get?_eq_getD body 28 (by omega), get?_eq_getD body 29 (by omega),
    get?_eq_getD body 30 (by omega), get?_eq_getD body 31 (by omega),
    get?_eq_getD body 36 (by omega), get?_eq_getD body 37 (by omega)]
  rfl

/-- A positive divisor in the current formula: a byte is at most 255, so
256 - adj0 is at least 1. -/
theorem divisor_pos (b : Byte) : 0 < (256 - (b.val : ℚ)) * (392 / 100) := by
  have hlt : (b.val : ℚ) < 256 := by exact_mod_cast b.isLt
  exact mul_pos (by linarith) (by norm_num)

/-- C3: Data frame body decoding.  For every 38 byte body whose last byte
is the tail sentinel 0x33, the parser publishes a DataFrame whose four
raw ADC slots land on channels in the fixed permutation 1, 0, 2, 3 (so
channel 0 takes the second slot, bytes 2..3), whose eight signed little
endian SDADC values map onto 4 channels x 2 sub samples through the
fixed offset table, whose master and slave sequences are the little
endian 16 bit values at bytes 32..33 and 34..35, whose device state flag
is byte 36, and whose derived current per channel equals
1000 * (sdadc0 + 32767) * 3300 / 65535 / ((256 - adj0) * 3.92). -/
theorem data_frame_decoding (body : List Byte) (h38 : body.length = 38)
    (htail : body.getD 37 0 = (0x33 : Byte)) :
    ∃ f : DataFrame, parse_data_frame body = ParseResult.published f ∧
      (f.channels 0).adc = toInt16LE (body.getD 2 0) (body.getD 3 0) ∧
      (f.channels 1).adc = toInt16LE (body.getD 0 0) (body.getD 1 0) ∧
      (f.channels 2).adc = toInt16LE (body.getD 4 0) (body.getD 5 0) ∧
      (f.channels 3).adc = toInt16LE (body.getD 6 0) (body.getD 7 0) ∧
      (f.channels 0).sdadc0 = toInt16LE (body.getD 8 0) (body.getD 9 0) ∧
      (f.channels 1).sdadc0 = toInt16LE (body.getD 10 0) (body.getD 11 0) ∧
      (f.channels 2).sdadc0 = toInt16LE (body.getD 12 0) (body.getD 13 0) ∧
      (f.channels 3).sdadc0 = toInt16LE (body.getD 18 0) (body.getD 19 0) ∧
      (f.channels 0).sdadc1 = toInt16LE (body.getD 14 0) (body.getD 15 0) ∧
      (f.channels 1).sdadc1 = toInt16LE (body.getD 16 0) (body.getD 17 0) ∧
      (f.channels 2).sdadc1 = toInt16LE (body.getD 20 0) (body.getD 21 0) ∧
      (f.channels 3).sdadc1 = toInt16LE (body.getD 22 0) (body.getD 23 0) ∧
      (∀ i : Fin 4, (f.channels i).adj0 = (body.getD (24 + i.val) 0).val ∧
        (f.channels i).adj1 = (body.getD (28 + i.val) 0).val) ∧
      f.master_frame = toUInt16LE (body.getD 32 0) (body.getD 33 0) ∧
      f.slave_frame = toUInt16LE (body.getD 34 0) (body.getD 35 0) ∧
      f.lidar_state = (body.getD 36 0).val ∧
      (∀ i : Fin 4, (f.channels i).current =
        (1000 * (((f.channels i).sdadc0 : ℚ) + 32767) * 3300 / 65535) /
          ((256 - ((f.channels i).adj0 : ℚ)) * (392 / 100))) := by
  rw [parse_data_frame_spec body h38, htail, if_neg (by decide)]
  refine ⟨_, rfl, sliceI16_eq body 2 (by omega), sliceI16_eq body 0 (by omega),
    sliceI16_eq body 4 (by omega), sliceI16_eq body 6 (by omega),
    sliceI16_eq body 8 (by omega), sliceI16_eq body 10 (by omega),
    sliceI16_eq body 12 (by omega), sliceI16_eq body 18 (by omega),
    sliceI16_eq body 14 (by omega), sliceI16_eq body 16 (by omega),
    sliceI16_eq body 20 (by omega), sliceI16_eq body 22 (by omega),
    ?_, sliceU16_eq body 32 (by omega), sliceU16_eq body 34 (by omega),
    rfl, ?_⟩
  · intro i
    fin_cases i <;> exact ⟨rfl, rfl⟩
  · intro i
    fin_cases i <;> rfl


/-- Witness for C3: the sample body decodes and every stated field
equation holds. -/
theorem data_frame_decoding_witness :
    sampleBody.length = 38 ∧ sampleBody.getD 37 0 = (0x33 : Byte) ∧
    (∃ f : DataFrame, parse_data_frame sampleBody = ParseResult.published f ∧
      (f.channels 0).adc =
        toInt16LE (sampleBody.getD 2 0) (sampleBody.getD 3 0) ∧
      (f.channels 1).adc =
        toInt16LE (sampleBody.getD 0 0) (sampleBody.getD 1 0) ∧
      (f.channels 2).adc =
        toInt16LE (sampleBody.getD 4 0) (sampleBody.getD 5 0) ∧
      (f.channels 3).adc =
        toInt16LE (sampleBody.getD 6 0) (sampleBody.getD 7 0) ∧
      (f.channels 0).sdadc0 =
        toInt16LE (sampleBody.getD 8 0) (sampleBody.getD 9 0) ∧
      (f.channels 1).sdadc0 =
        toInt16LE (sampleBody.getD 10 0) (sampleBody.getD 11 0) ∧
      (f.channels 2).sdadc0 =
        toInt16LE (sampleBody.getD 12 0) (sampleBody.getD 13 0) ∧
      (f.channels 3).sdadc0 =
        toInt16LE (sampleBody.getD 18 0) (sampleBody.getD 19 0) ∧
      (f.channels 0).sdadc1 =
        toInt16LE (sampleBody.getD 14 0) (sampleBody.getD 15 0) ∧
      (f.channels 1).sdadc1 =
        toInt16LE (sampleBody.getD 16 0) (sampleBody.getD 17 0) ∧
      (f.channels 2).sdadc1 =
        toInt16LE (sampleBody.getD 20 0) (sampleBody.getD 21 0) ∧
      (f.channels 3).sdadc1 =
        toInt16LE (sampleBody.getD 22 0) (sampleBody.getD 23 0) ∧
      (∀ i : Fin 4,
        (f.channels i).adj0 = (sampleBody.getD (24 + i.val) 0).val ∧
        (f.channels i).adj1 = (sampleBody.getD (28 + i.val) 0).val) ∧
      f.master_frame =
        toUInt16LE (sampleBody.getD 32 0) (sampleBody.getD 33 0) ∧
      f.slave_frame =
        toUInt16LE (sampleBody.getD 34 0) (sampleBody.getD 35 0) ∧
      f.lidar_state = (sampleBody.getD 36 0).val ∧
      (∀ i : Fin 4, (f.channels i).current =
        (1000 * (((f.channels i).sdadc0 : ℚ) + 32767) * 3300 / 65535) /
          ((256 - ((f.channels i).adj0 : ℚ)) * (392 / 100)))) :=
  ⟨by decide, by decide,
    data_frame_decoding sampleBody (by decide) (by decide)⟩

/-- C9: Decode step safety.  On every 38 byte body the parser touches
only indices 0 through 37, all in bounds (no exception outcome), and
whatever frame it builds has a strictly positive current divisor
(256 - adj0) * 3.92 on every channel, because adj0 is one byte, at most
255. -/
theorem decode_step_safety (body : List Byte) (h38 : body.length = 38) :
    (∃ f : DataFrame,
      (parse_data_frame body = ParseResult.published f ∨
        parse_data_frame body = ParseResult.tailError f (body.getD 37 0)) ∧
      ∀ i : Fin 4, 0 < (256 - ((f.channels i).adj0 : ℚ)) * (392 / 100)) ∧
    parse_data_frame body ≠ ParseResult.parseError := by
  rw [parse_data_frame_spec body h38]
  by_cases ht : (body.getD 37 0).val = 0x33
  · rw [if_neg (by omega)]
    refine ⟨⟨_, Or.inl rfl, ?_⟩, by simp⟩
    intro i
    fin_cases i <;> exact divisor_pos _
  · rw [if_pos ht]
    refine ⟨⟨_, Or.inr rfl, ?_⟩, by simp⟩
    intro i
    fin_cases i <;> exact divisor_pos _


/-- Witness for C9 at a body whose tail is corrupted: the parser still
touches only valid indices and the divisors are positive. -/
theorem decode_step_safety_witness :
    sampleBadBody.length = 38 ∧
    ((∃ f : DataFrame,
      (parse_data_frame sampleBadBody = ParseResult.published f ∨
        parse_data_frame sampleBadBody =
          ParseResult.tailError f (sampleBadBody.getD 37 0)) ∧
      ∀ i : Fin 4, 0 < (256 - ((f.channels i).adj0 : ℚ)) * (392 / 100)) ∧
    parse_data_frame sampleBadBody ≠ ParseResult.parseError) :=
  ⟨by decide, decode_step_safety sampleBadBody (by decide)⟩

/-- C4 counterexample: in state SAW_CMD_LEAD (frame_state 2) a repeated
CMD_LEAD1 byte 0x05 leaves the decoder in state 2; it does not switch to
SAW_DATA_LEAD (state 1) as the claim states.  Stream: 0x05 0x05 from the
fresh decoder. -/
theorem cmd_lead_state_counterexample :
    (runWorker initWorker [(0x05 : Byte), (0x05 : Byte)]).1.frame_state = 2 ∧
    ¬ ((runWorker initWorker
        [(0x05 : Byte), (0x05 : Byte)]).1.frame_state = 1) := by
  decide

/-- C4 (amended): in the command lead state SAW_CMD_LEAD (frame_state 2),
for any byte other than CMD_LEAD2 (0x1C): a repeated CMD_LEAD1 (0x05)
leaves the decoder in SAW_CMD_LEAD, DATA_LEAD1 (0xA9) switches it to
SAW_DATA_LEAD, and any byte that is none of the three lead bytes returns
it to SEEK; nothing is published or reported. -/
theorem cmd_lead_state_transitions (published : List DataFrame)
    (cmd_accepted : List (Byte × Byte × List Byte))
    (errors tail_error_prints chk_error_prints : ℕ) (b : Byte)
    (hb : b.val ≠ 0x1C) :
    runWorker ⟨2, published, cmd_accepted, errors, tail_error_prints,
        chk_error_prints⟩ [b] =
      (⟨if b.val = 0x05 then 2 else if b.val = 0xA9 then 1 else 0,
        published, cmd_accepted, errors, tail_error_prints,
        chk_error_prints⟩, false) := by
  unfold runWorker
  show runWorkerF (0 + 1) _ (b :: []) = _
  by_cases h5 : b.val = 0x05
  · simp [runWorkerF, h5, hb]
  · by_cases hA : b.val = 0xA9
    · simp [runWorkerF, h5, hA, hb]
    · simp [runWorkerF, h5, hA, hb]

/-- Witness for C4 at the byte 0x07, none of the lead bytes. -/
theorem cmd_lead_state_transitions_witness :
    (0x07 : Byte).val ≠ 0x1C ∧
    runWorker ⟨2, [], [], 0, 0, 0⟩ [(0x07 : Byte)] =
      (⟨if (0x07 : Byte).val = 0x05 then 2
        else if (0x07 : Byte).val = 0xA9 then 1 else 0,
        [], [], 0, 0, 0⟩, false) :=
  ⟨by decide, cmd_lead_state_transitions [] [] 0 0 0 (0x07 : Byte) (by decide)⟩

/-- C5 counterexample: a data frame with a corrupted tail byte (stream
A9 B5 followed by 38 zero bytes) is detected and discarded, but the
worker only prints the diagnostic: the error counter / error callback
channel is never invoked (errors stays 0). -/
theorem framing_error_channel_counterexample :
    (runWorker initWorker ((0xA9 : Byte) :: (0xB5 : Byte) ::
        List.replicate 38 (0x00 : Byte))).1.tail_error_prints = 1 ∧
    (runWorker initWorker ((0xA9 : Byte) :: (0xB5 : Byte) ::
        List.replicate 38 (0x00 : Byte))).1.errors = 0 ∧
    (runWorker initWorker ((0xA9 : Byte) :: (0xB5 : Byte) ::
        List.replicate 38 (0x00 : Byte))).1.published = [] ∧
    (runWorker initWorker ((0xA9 : Byte) :: (0xB5 : Byte) ::
        List.replicate 38 (0x00 : Byte))).1.frame_state = 0 := by
  decide

theorem getD_append_length (l : List Byte) (a : Byte) :
    (l ++ [a]).getD l.length 0 = a := by
  induction l with
  | nil => rfl
  | cons x t ih => simpa using ih

/-- An exhausted stream stops the worker loop in its current state. -/
theorem runWorkerF_nil (fuel : ℕ) (st : WorkerState) :
    runWorkerF fuel st [] = (st, false) := by
  cases fuel <;> rfl

/-- One seek step: the data lead byte A9 moves the worker to state 1. -/
theorem runWorkerF_seek_A9 (n : ℕ) (p : List DataFrame)
    (c : List (Byte × Byte × List Byte)) (e t k : ℕ) (rest : List Byte) :
    runWorkerF (n + 1) ⟨0, p, c, e, t, k⟩ ((0xA9 : Byte) :: rest) =
      runWorkerF n ⟨1, p, c, e, t, k⟩ rest := by
  simp only [runWorkerF]
  rw [if_pos trivial, if_pos (show ((0xA9 : Byte)).val = 0xA9 from rfl)]

/-- One seek step: the command lead byte 05 moves the worker to
state 2. -/
theorem runWorkerF_seek_05 (n : ℕ) (p : List DataFrame)
    (c : List (Byte × Byte × List Byte)) (e t k : ℕ) (rest : List Byte) :
    runWorkerF (n + 1) ⟨0, p, c, e, t, k⟩ ((0x05 : Byte) :: rest) =
      runWorkerF n ⟨2, p, c, e, t, k⟩ rest := by
  simp only [runWorkerF]
  rw [if_pos trivial, if_neg (show ¬ ((0x05 : Byte)).val = 0xA9 by decide),
    if_pos (show ((0x05 : Byte)).val = 0x05 from rfl)]

/-- The B5 step on a 38 byte body with a corrupted tail: the worker
consumes the body, prints the tail diagnostic and reenters seek. -/
theorem runWorkerF_b5_bad_tail (n : ℕ) (p : List DataFrame)
    (c : List (Byte × Byte × List Byte)) (e t k : ℕ) (body : List Byte)
    (h38 : body.length = 38) (htail : ¬ (body.getD 37 0).val = 0x33) :
    runWorkerF (n + 1) ⟨1, p, c, e, t, k⟩ ((0xB5 : Byte) :: body) =
      runWorkerF n ⟨0, p, c, e, t + 1, k⟩ (body.drop 38) := by
  simp only [runWorkerF]
  rw [if_neg (show ¬ (1 : ℕ) = 0 by decide), if_pos trivial,
    if_pos (show ((0xB5 : Byte)).val = 0xB5 from rfl),
    if_neg (show ¬ body.length < 38 by omega),
    List.take_of_length_le (show body.length ≤ 38 by omega),
    if_neg htail]

/-- The 1C step on a complete command frame with a checksum that does not
match: the worker consumes the frame, prints the checksum diagnostic and
reenters seek. -/
theorem runWorkerF_1c_bad_ck (n : ℕ) (p : List DataFrame)
    (c : List (Byte × Byte × List Byte)) (e t k : ℕ) (cmd_id len : Byte)
    (payload : List Byte) (ck : Byte) (hplen : payload.length = len.val)
    (hck : ¬ (0x05 + 0x1C + cmd_id.val + len.val +
        (payload.map Fin.val).sum) % 256 = ck.val) :
    runWorkerF (n + 1) ⟨2, p, c, e, t, k⟩
      ((0x1C : Byte) :: cmd_id :: len :: (payload ++ [ck])) =
      runWorkerF n ⟨0, p, c, e, t, k + 1⟩
        ((payload ++ [ck]).drop (len.val + 1)) := by
  simp only [runWorkerF]
  rw [if_neg (show ¬ (2 : ℕ) = 0 by decide),
    if_neg (show ¬ (2 : ℕ) = 1 by decide), if_pos trivial,
    if_pos (show ((0x1C : Byte)).val = 0x1C from rfl),
    if_neg (show ¬ (cmd_id :: len :: (payload ++ [ck])).length < 2 by simp),
    show (cmd_id :: len :: (payload ++ [ck])).getD 0 0 = cmd_id from rfl,
    show (cmd_id :: len :: (payload ++ [ck])).getD 1 0 = len from rfl,
    show (cmd_id :: len :: (payload ++ [ck])).drop 2 = payload ++ [ck]
      from rfl,
    if_neg (show ¬ ((payload ++ [ck]) : List Byte).length < len.val + 1
      by simp [hplen]),
    List.take_of_length_le
      (show ((payload ++ [ck]) : List Byte).length ≤ len.val + 1
        by simp [hplen]),
    show ((payload ++ [ck]) : List Byte).dropLast = payload from by simp,
    show ((payload ++ [ck]) : List Byte).getD len.val 0 = ck from by
      rw [← hplen]; exact getD_append_length payload ck,
    if_neg hck]

/-- C5 (amended): a bad data frame tail and a command checksum mismatch
are both non fatal: the offending frame is discarded without being
published or accepted, the decoder resumes scanning from SEEK
(frame_state 0), and the mismatch is reported only as a console
diagnostic print; the error callback / error counter channel stays
untouched. -/
theorem framing_error_semantics (published : List DataFrame)
    (cmd_accepted : List (Byte × Byte × List Byte))
    (errors tail_error_prints chk_error_prints : ℕ)
    (body : List Byte) (h38 : body.length = 38)
    (htail : ¬ (body.getD 37 0).val = 0x33)
    (cmd_id len : Byte) (payload : List Byte) (ck : Byte)
    (hplen : payload.length = len.val)
    (hck : ¬ (0x05 + 0x1C + cmd_id.val + len.val +
        (payload.map Fin.val).sum) % 256 = ck.val) :
    runWorker ⟨0, published, cmd_accepted, errors, tail_error_prints,
        chk_error_prints⟩ ((0xA9 : Byte) :: (0xB5 : Byte) :: body) =
      (⟨0, published, cmd_accepted, errors, tail_error_prints + 1,
        chk_error_prints⟩, false) ∧
    runWorker ⟨0, published, cmd_accepted, errors, tail_error_prints,
        chk_error_prints⟩ ((0x05 : Byte) :: (0x1C : Byte) :: cmd_id ::
          len :: (payload ++ [ck])) =
      (⟨0, published, cmd_accepted, errors, tail_error_prints,
        chk_error_prints + 1⟩, false) := by
  constructor
  · have hdr : body.drop 38 = [] := List.drop_eq_nil_of_le (by omega)
    unfold runWorker
    show runWorkerF (body.length + 1 + 1) _
      ((0xA9 : Byte) :: (0xB5 : Byte) :: body) = _
    rw [runWorkerF_seek_A9, runWorkerF_b5_bad_tail _ _ _ _ _ _ _ h38 htail,
      hdr, runWorkerF_nil]
  · have hrd : ((payload ++ [ck]) : List Byte).drop (len.val + 1) = [] :=
      List.drop_eq_nil_of_le (by simp [hplen])
    unfold runWorker
    show runWorkerF ((payload ++ [ck]).length + 1 + 1 + 1 + 1) _
      ((0x05 : Byte) :: (0x1C : Byte) :: cmd_id :: len ::
        (payload ++ [ck])) = _
    rw [runWorkerF_seek_05]
    rw [runWorkerF_1c_bad_ck _ _ _ _ _ _ _ _ _ _ hplen hck, hrd,
      runWorkerF_nil]

/-- Witness for C5: a zero filled body with tail 0x01, and the checksum
rejection example of the specification test list (payload 01 02,
length 2, checksum off by one). -/
theorem framing_error_semantics_witness :
    (List.replicate 38 (0x01 : Byte)).length = 38 ∧
    ¬ ((List.replicate 38 (0x01 : Byte)).getD 37 0).val = 0x33 ∧
    ([(0x01 : Byte), (0x02 : Byte)].map Fin.val).length =
      (0x02 : Byte).val ∧
    ¬ (0x05 + 0x1C + (0x16 : Byte).val + (0x02 : Byte).val +
        (([(0x01 : Byte), (0x02 : Byte)]).map Fin.val).sum) % 256 =
      (0x3D : Byte).val ∧
    (runWorker ⟨0, [], [], 0, 0, 0⟩ ((0xA9 : Byte) :: (0xB5 : Byte) ::
        List.replicate 38 (0x01 : Byte)) =
      (⟨0, [], [], 0, 0 + 1, 0⟩, false) ∧
    runWorker ⟨0, [], [], 0, 0, 0⟩ ((0x05 : Byte) :: (0x1C : Byte) ::
        (0x16 : Byte) :: (0x02 : Byte) ::
          ([(0x01 : Byte), (0x02 : Byte)] ++ [(0x3D : Byte)])) =
      (⟨0, [], [], 0, 0, 0 + 1⟩, false)) :=
  ⟨by decide, by decide, by decide, by decide,
    framing_error_semantics [] [] 0 0 0 (List.replicate 38 (0x01 : Byte))
      (by decide) (by decide) (0x16 : Byte) (0x02 : Byte)
      [(0x01 : Byte), (0x02 : Byte)] (0x3D : Byte) (by decide) (by decide)⟩

/-- C7: Publish fan out.  publish(frame) writes the frame as a one
element sequence into every registered buffer; a subscriber whose write
raises is skipped without aborting delivery to the remaining
subscribers, each accepting subscriber is updated independently, the
returned count is the number of subscribers whose write accepted at
least one element, and a full list typed subscriber silently drops the
frame (its write returns 0 unchanged) and is not counted. -/
theorem publish_fanout (frame : α) (subs : List (SubBuffer α)) :
    (publish frame subs).1 = subs.countP (acceptsFrame frame) ∧
    (publish frame subs).2 = subs.map (afterPublish frame) ∧
    ∀ s : SubBuffer α, s.buffer_type = BufferType.list →
      s.buf.available = s.buf.size → s.writeFrames [frame] = some (0, s) := by
  refine ⟨?_, ?_, ?_⟩
  · induction subs with
    | nil => rfl
    | cons s subs ih =>
      rcases h : s.writeFrames [frame] with _ | ⟨written, s2⟩
      · simp [publish, List.countP_cons, acceptsFrame, h, ih]
      · simp [publish, List.countP_cons, acceptsFrame, h, ih, Nat.add_comm]
  · induction subs with
    | nil => rfl
    | cons s subs ih =>
      rcases h : s.writeFrames [frame] with _ | ⟨written, s2⟩
      · simp [publish, afterPublish, h, ih]
      · simp [publish, afterPublish, h, ih]
  · intro s hlist hfull
    rcases s with ⟨bt, buf⟩
    change bt = BufferType.list at hlist
    subst hlist
    simp only [SubBuffer.writeFrames]
    rw [write_full buf [frame] hfull]


/-- Witness for C7 over the sample subscriber list, with the full buffer
conjunct instantiated at the full subscriber. -/
theorem publish_fanout_witness :
    (publish (5 : ℕ) sampleSubs).1 = sampleSubs.countP (acceptsFrame 5) ∧
    (publish (5 : ℕ) sampleSubs).2 = sampleSubs.map (afterPublish 5) ∧
    (SubBuffer.mk BufferType.list (⟨1, [7], 0, 0, 1⟩ : CircularBuffer ℕ)
        ).writeFrames [5] =
      some (0, SubBuffer.mk BufferType.list
        (⟨1, [7], 0, 0, 1⟩ : CircularBuffer ℕ)) :=
  ⟨(publish_fanout 5 sampleSubs).1, (publish_fanout 5 sampleSubs).2.1,
    (publish_fanout 5 sampleSubs).2.2 _ rfl rfl⟩

/-- C10: Outbound control block round trip.  When all nine fields fit in
16 bits, to_bytes produces exactly 18 bytes, each one a byte value, and
from_bytes inverts it; from_bytes rejects any input whose length is not
18. -/
theorem uart_control_roundtrip (c : UartControl) (h : c.fieldsInRange) :
    (∃ l : List ℕ, c.to_bytes = some l ∧ l.length = 18 ∧
      (∀ x ∈ l, x < 256) ∧ UartControl.from_bytes l = some c) ∧
    ∀ data : List ℕ, data.length ≠ 18 →
      UartControl.from_bytes data = none := by
  constructor
  · rcases c with ⟨f1, f2, f3, f4, f5, f6, f7, f8, f9⟩
    obtain ⟨h1, h2, h3, h4, h5, h6, h7, h8, h9⟩ := h
    dsimp only at h1 h2 h3 h4 h5 h6 h7 h8 h9
    refine ⟨packU16BE f1 ++ packU16BE f2 ++ packU16BE f3 ++ packU16BE f4 ++
      packU16BE f5 ++ packU16BE f6 ++ packU16BE f7 ++ packU16BE f8 ++
      packU16BE f9, ?_, ?_, ?_, ?_⟩
    · unfold UartControl.to_bytes
      rw [if_pos ⟨h1, h2, h3, h4, h5, h6, h7, h8, h9⟩]
    · simp [packU16BE]
    · intro x hx
      simp [packU16BE] at hx
      rcases hx with hx | hx | hx | hx | hx | hx | hx | hx | hx | hx | hx |
        hx | hx | hx | hx | hx | hx | hx <;> omega
    · unfold UartControl.from_bytes
      rw [if_pos (by simp [packU16BE])]
      simp only [packU16BE, List.cons_append, List.nil_append,
        List.getD_cons_zero, List.getD_cons_succ, Option.some.injEq,
        UartControl.mk.injEq]
      refine ⟨by omega, by omega, by omega, by omega, by omega, by omega,
        by omega, by omega, by omega⟩
  · intro data hd
    unfold UartControl.from_bytes
    rw [if_neg hd]

/-- Witness for C10 at a concrete control block, with the length
rejection instantiated at a 3 byte input. -/
theorem uart_control_roundtrip_witness :
    (UartControl.mk 100 200 300 400 500 600 700 0x1234 800).fieldsInRange ∧
    (∃ l : List ℕ,
      (UartControl.mk 100 200 300 400 500 600 700 0x1234 800).to_bytes =
        some l ∧ l.length = 18 ∧ (∀ x ∈ l, x < 256) ∧
      UartControl.from_bytes l =
        some (UartControl.mk 100 200 300 400 500 600 700 0x1234 800)) ∧
    UartControl.from_bytes [1, 2, 3] = none :=
  ⟨by decide,
    (uart_control_roundtrip
      (UartControl.mk 100 200 300 400 500 600 700 0x1234 800)
      (by decide)).1,
    (uart_control_roundtrip
      (UartControl.mk 100 200 300 400 500 600 700 0x1234 800)
      (by decide)).2 [1, 2, 3] (by decide)⟩

end MasterProgram
